import Mathlib

/-!
Verification of the TTS-Space backend core against its specification.

We shallowly embed the Python source under `src/backend/app/` into Lean:
strings become `List Char`, the pure text segmenter becomes a Lean
function, the async endpoints become trace-producing functions over
oracles for their external collaborators (the TTS model, the audio
encoder, the client connection), and the asyncio semaphore becomes a
transition system on an admission counter.
-/

namespace TTS

/-! ## Python string primitives (as used by `app/utils/text.py`) -/

/-- Characters treated as whitespace by Python's `str.split()` / `str.strip()`
(the ASCII whitespace set). -/
def pyIsSpace (c : Char) : Bool :=
  c = ' ' || c = '\t' || c = '\n' || c = '\r' || c = '\x0b' || c = '\x0c'

/-- Accumulator loop for `str.split()` with no argument: `acc` holds the
current in-progress word, reversed. -/
def pyWordsAux : List Char → List Char → List (List Char)
  | [], acc => if acc = [] then [] else [acc.reverse]
  | c :: cs, acc =>
    if pyIsSpace c then
      if acc = [] then pyWordsAux cs [] else acc.reverse :: pyWordsAux cs []
    else pyWordsAux cs (c :: acc)

/-- `str.split()` with no argument: maximal runs of non-whitespace
characters; separators discarded, no empty words. -/
def pyWords (s : List Char) : List (List Char) := pyWordsAux s []

/-- `" ".join(words)`. -/
def joinSpace : List (List Char) → List Char
  | [] => []
  | [w] => w
  | w :: ws => w ++ ' ' :: joinSpace ws

/-- `" ".join(text.strip().split())` — the whitespace normalization on line 2
of `split_text` (the leading `.strip()` is redundant with `.split()`). -/
def normalize (s : List Char) : List Char := joinSpace (pyWords s)

/-- `str.strip()`: drop leading and trailing whitespace. -/
def pyStrip (s : List Char) : List Char :=
  ((s.dropWhile pyIsSpace).reverse.dropWhile pyIsSpace).reverse

/-- `s.replace(c, r)` for a one-character pattern: every occurrence of `c`
is replaced by `r`, left to right. -/
def replaceChar (c : Char) (r : List Char) : List Char → List Char
  | [] => []
  | x :: xs => if x = c then r ++ replaceChar c r xs else x :: replaceChar c r xs

/-- Prepend a character onto the first piece of a split result. -/
def consHead (c : Char) : List (List Char) → List (List Char)
  | [] => [[c]]
  | s :: ss => (c :: s) :: ss

/-- `s.split(". ")`: split on the two-character delimiter, leftmost
occurrence first, non-overlapping, keeping empty pieces. -/
def splitDotSpace : List Char → List (List Char)
  | [] => [[]]
  | [c] => [[c]]
  | c :: d :: rest =>
    if c = '.' ∧ d = ' ' then [] :: splitDotSpace rest
    else consHead c (splitDotSpace (d :: rest))

/-- `s.split(" ")`: split on a single space, keeping empty pieces. -/
def splitSpace : List Char → List (List Char)
  | [] => [[]]
  | c :: rest =>
    if c = ' ' then [] :: splitSpace rest else consHead c (splitSpace rest)

/-! ## `split_text` (src/backend/app/utils/text.py)

The Python function is two nested greedy packing loops; we embed each loop
as a structurally recursive function threading `(segments, buffer)` and
returning both. -/

/-- The inner word-wrapping loop of `split_text` (lines 17–28): greedily
pack the space-delimited words of an oversized chunk, flushing `temp` to
the segment list when the next word would overflow. -/
def wordLoop (maxChars : Nat) : List (List Char) → List Char → List (List Char) →
    List (List Char) × List Char
  | [], temp, segs => (segs, temp)
  | w :: ws, temp, segs =>
    let candidate := pyStrip (temp ++ ' ' :: w)
    if candidate.length ≤ maxChars then
      wordLoop maxChars ws candidate segs
    else
      wordLoop maxChars ws w (if temp ≠ [] then segs ++ [temp] else segs)

/-- The outer chunk-packing loop of `split_text` (lines 9–31): greedily
pack sentence chunks into `current`, flushing on overflow and
word-wrapping chunks that are themselves longer than `maxChars`. -/
def chunkLoop (maxChars : Nat) : List (List Char) → List Char → List (List Char) →
    List (List Char) × List Char
  | [], current, segs => (segs, current)
  | ch :: chs, current, segs =>
    let candidate := pyStrip (current ++ ' ' :: ch)
    if candidate.length ≤ maxChars then
      chunkLoop maxChars chs candidate segs
    else
      let segs1 := if current ≠ [] then segs ++ [current] else segs
      if maxChars < ch.length then
        let ws := wordLoop maxChars (splitSpace ch) [] segs1
        chunkLoop maxChars chs [] (if ws.2 ≠ [] then ws.1 ++ [ws.2] else ws.1)
      else
        chunkLoop maxChars chs ch segs1

/-- `split_text(text, max_chars)` from src/backend/app/utils/text.py. -/
def split_text (text : List Char) (maxChars : Nat) : List (List Char) :=
  let cleaned := normalize text
  if cleaned = [] then []
  else if cleaned.length ≤ maxChars then [cleaned]
  else
    let chunks := splitDotSpace
      (replaceChar '?' ['?', '.', ' '] (replaceChar '!' ['!', '.', ' '] cleaned))
    let r := chunkLoop maxChars chunks [] []
    let segs := if r.2 ≠ [] then r.1 ++ [r.2] else r.1
    (segs.map pyStrip).filter (fun s => s ≠ [])

/-! ## Endpoint call traces (src/backend/app/routers/)

Each endpoint is embedded as a function from the branch-deciding facts of a
request (which validations pass, whether the external TTS call succeeds) to
the ordered list of primitive actions the handler performs.  The external
collaborators (`tts_manager`, `soundfile`, the semaphore) appear as trace
steps. -/

inductive Step
  /-- an `HTTPException(400)` raised by a validation check -/
  | validationError
  /-- `_prepare_reference_audio` (voice_clone only) -/
  | prepareRef
  /-- entering `async with _semaphore` in `run_inference` -/
  | acquireSlot
  /-- leaving `async with _semaphore` in `run_inference` -/
  | releaseSlot
  /-- a call to one of the `tts_manager.generate_*` functions -/
  | generate
  /-- WAV encoding of the returned buffer (`sf.write`) -/
  | encode
  deriving DecidableEq, Repr

/-- `generate_custom_voice` (custom_voice.py lines 31–82), non-streaming:
validate speaker, validate model size, then call
`tts_manager.generate_custom_voice` directly and encode the result.
`genOk` says whether the generation call returns (rather than raises). -/
def generateCustomVoice (speakerOk modelOk genOk : Bool) : List Step :=
  if !speakerOk then [.validationError]
  else if !modelOk then [.validationError]
  else if genOk then [.generate, .encode] else [.generate]

/-- `generate_voice_design` (voice_design.py lines 25–59), non-streaming:
no handler-level validation; calls `tts_manager.generate_voice_design`
directly and encodes the result. -/
def generateVoiceDesign (genOk : Bool) : List Step :=
  if genOk then [.generate, .encode] else [.generate]

/-- `generate_voice_clone` (voice_clone.py lines 70–135), non-streaming:
validate model size, validate that a reference transcript is present unless
x-vector-only, prepare the reference audio, then call
`tts_manager.generate_voice_clone` directly and encode the result. -/
def generateVoiceClone (modelOk refOk genOk : Bool) : List Step :=
  if !modelOk then [.validationError]
  else if !refOk then [.validationError]
  else if genOk then [.prepareRef, .generate, .encode] else [.prepareRef, .generate]

/-! ## `run_inference` (src/backend/app/utils/inference.py)

`async with _semaphore:` acquires one admission slot and — by the context
manager protocol — releases it on every way out of the block.  Inside the
block the job runs in a worker thread and, when the effective timeout is
positive, is raced against an `asyncio.wait_for` deadline.  We embed one
call as a function of the configured default, the caller's `timeout`
argument, and the job's duration and outcome (the job itself is the
external collaborator), returning the call's result together with its
slot-action trace. -/

inductive InfResult (α : Type)
  /-- the job's value, returned -/
  | ok (v : α)
  /-- the job raised; the exception propagates -/
  | error (msg : List Char)
  /-- `asyncio.TimeoutError` from `wait_for` -/
  | timedOut
  deriving DecidableEq, Repr

/-- `effective_timeout = REQUEST_TIMEOUT_S if timeout is None else timeout`
(inference.py line 12). -/
def effectiveTimeout (requestTimeoutS : Int) (timeout : Option Int) : Int :=
  timeout.getD requestTimeoutS

/-- One call to `run_inference` (inference.py lines 9–15).  `jobDuration` is
how long the submitted job runs; `jobResult` is what it would produce.  The
deadline is applied iff the effective timeout is positive (line 13:
`if effective_timeout and effective_timeout > 0`), and expires when the job
runs longer than it. -/
def run_inference (requestTimeoutS : Int) (timeout : Option Int)
    (jobDuration : Nat) (jobResult : Except (List Char) α) :
    InfResult α × List Step :=
  let eff := effectiveTimeout requestTimeoutS timeout
  let res :=
    if 0 < eff ∧ eff < (jobDuration : Int) then InfResult.timedOut
    else
      match jobResult with
      | .ok v => InfResult.ok v
      | .error m => InfResult.error m
  (res, [.acquireSlot, .generate, .releaseSlot])

/-- How a job's own outcome surfaces from `run_inference` when no deadline
cuts it off: a value is returned, an exception propagates. -/
def ofExcept : Except (List Char) α → InfResult α
  | .ok v => .ok v
  | .error m => .error m

/-! ## The admission counter (`_semaphore`, inference.py line 6)

`asyncio.Semaphore(MAX_CONCURRENCY)` as a transition system on the number
of currently admitted jobs: an acquire step can only fire while fewer than
`MAX_CONCURRENCY` jobs are admitted (otherwise the caller stays suspended
and no step happens), a release step only while some job is admitted. -/

inductive SemOp
  | acquire
  | release
  deriving DecidableEq, Repr

/-- One admissible scheduler step of the semaphore. `none` means the
operation cannot fire in this state. -/
def gateStep (maxConcurrency : Nat) : Nat → SemOp → Option Nat
  | n, .acquire => if n < maxConcurrency then some (n + 1) else none
  | n, .release => if 0 < n then some (n - 1) else none

/-- Run a schedule of semaphore operations, returning every intermediate
admission count (including start and end), or `none` if some operation
could not fire where the schedule places it. -/
def gateStates (maxConcurrency : Nat) : Nat → List SemOp → Option (List Nat)
  | n, [] => some [n]
  | n, op :: ops =>
    match gateStep maxConcurrency n op with
    | none => none
    | some m => (gateStates maxConcurrency m ops).map (n :: ·)

/-! ## The streaming event generator (custom_voice.py lines 97–127)

One wire event per segment, in order: check `request.is_disconnected()`
(break on true), run the guarded body — `run_inference` + WAV encode +
base64, all inside one `try` — and yield an audio event on success or
yield one error event and break on any exception.  The oracles `disc` and
attempt give, per loop iteration, what the client connection and the
guarded body do. -/

inductive StreamEvent
  /-- `{"index": i, "total": t, "audio": ...}` -/
  | audio (index total : Nat)
  /-- `{"index": i, "total": t, "error": ...}` -/
  | error (index total : Nat)
  deriving DecidableEq, Repr

/-- Index of the segment an event reports on. -/
def StreamEvent.index' : StreamEvent → Nat
  | .audio i _ => i
  | .error i _ => i

/-- Is this an error event? -/
def StreamEvent.isError : StreamEvent → Bool
  | .audio _ _ => false
  | .error _ _ => true

/-- The `for index, segment in enumerate(segments)` loop of
`event_generator`, started at index `i`. -/
def eventLoop (disc att : Nat → Bool) (total : Nat) : Nat → List (List Char) →
    List StreamEvent
  | _, [] => []
  | i, _ :: rest =>
    if disc i then []
    else if att i then .audio i total :: eventLoop disc att total (i + 1) rest
    else [.error i total]

/-- `event_generator` over the session's segments: `total = len(segments)`,
iteration starts at index 0. -/
def event_generator (disc att : Nat → Bool) (segments : List (List Char)) :
    List StreamEvent :=
  eventLoop disc att segments.length 0 segments

/-! ## StatusManager (src/backend/app/services/status_manager.py)

The bus state is the set of subscriber queues (modelled as a list, each
queue a FIFO list) plus the retained `_current_status` snapshot.  The
message payload type stays abstract.  `broadcast` stores the message as
the snapshot and appends it to every queue (lines 69–95); `subscribe`
registers a fresh queue and immediately enqueues the snapshot when one
exists (lines 114–127).  Under asyncio's cooperative scheduling each
operation runs atomically with respect to the others (the shared set is
additionally lock-protected), so a session is a sequence of operations. -/

structure BusState (α : Type) where
  queues : List (List α)
  current : Option α
  deriving Repr

/-- The bus before any operation: no subscribers, no snapshot. -/
def busInit (α : Type) : BusState α := ⟨[], none⟩

inductive BusOp (α : Type)
  /-- `broadcast(message, ...)` -/
  | publish (m : α)
  /-- `subscribe()` by some client -/
  | subscribeOp

/-- The queue contents a fresh subscriber starts with (lines 117–126):
a new empty `asyncio.Queue`, then the current snapshot if there is one. -/
def freshQueue : Option α → List α
  | some m => [m]
  | none => []

/-- Apply one bus operation. -/
def applyBusOp (s : BusState α) : BusOp α → BusState α
  | .publish m => ⟨s.queues.map (· ++ [m]), some m⟩
  | .subscribeOp => ⟨s.queues ++ [freshQueue s.current], s.current⟩

/-- Run a sequence of bus operations from a state. -/
def runBus (s : BusState α) : List (BusOp α) → BusState α :=
  List.foldl applyBusOp s

/-- The most recently published message of an operation sequence. -/
def lastPublished (ops : List (BusOp α)) : Option α :=
  ops.foldl (fun acc op => match op with | .publish m => some m | .subscribeOp => acc) none

/-! ## `StatusManager.stream` (status_manager.py lines 133–145)

Each loop iteration awaits `queue.get()` under a 15-second
`asyncio.wait_for`.  The environment of one iteration is: the next message
arrives some `delay` into the wait, or nothing arrives during the wait
window, or the iteration raises some exception other than the wait
timeout.  A message that arrives after the window closes is not consumed
by that iteration; it is the environment's next-iteration arrival. -/

/-- The `timeout=15.0` argument of `asyncio.wait_for` on line 139. -/
def KEEP_ALIVE_TIMEOUT_S : Nat := 15

inductive WaitEnv (α : Type)
  /-- the next queued message `m` becomes available `delay` units into the wait -/
  | arrival (delay : Nat) (m : α)
  /-- no message becomes available during this wait -/
  | quiet
  /-- the iteration fails with an exception other than `asyncio.TimeoutError` -/
  | crash

inductive WaitOutcome (α : Type)
  | msg (m : α)
  | timedOut
  | internalError

/-- What `await asyncio.wait_for(queue.get(), timeout=15.0)` does in one
iteration. -/
def waitForNext : WaitEnv α → WaitOutcome α
  | .arrival d m => if d ≤ KEEP_ALIVE_TIMEOUT_S then .msg m else .timedOut
  | .quiet => .timedOut
  | .crash => .internalError

inductive WireEvent (α : Type)
  /-- `status.to_sse()` — a real data event -/
  | data (m : α)
  /-- `": ping\n\n"` — the idle keep-alive comment line -/
  | ping
  deriving DecidableEq, Repr

/-- The `while True` loop of `stream`: yield the message's SSE rendering,
or the ping comment on `asyncio.TimeoutError`, or end the generator on
any other exception. -/
def streamEvents : List (WaitEnv α) → List (WireEvent α)
  | [] => []
  | e :: rest =>
    match waitForNext e with
    | .msg m => .data m :: streamEvents rest
    | .timedOut => .ping :: streamEvents rest
    | .internalError => []

/-- `crash` is the only environment the loop does not survive. -/
def WaitEnv.isCrash : WaitEnv α → Bool
  | .crash => true
  | _ => false

/-- The event one surviving iteration emits. -/
def renderEnv : WaitEnv α → WireEvent α
  | .arrival d m => if d ≤ KEEP_ALIVE_TIMEOUT_S then .data m else .ping
  | .quiet => .ping
  | .crash => .ping

/-! ## Character preservation through `split_text`

`split_text` loses characters in exactly two controlled ways: whitespace
(normalization, stripping, word splitting) and the full stop consumed by
the `". "` sentence split (which the `!`/`?` rewriting also inserts).
Every other character survives in order.  `sigChars` extracts the
characters the segmenter must preserve. -/

/-- Characters the segmenter may never drop: everything that is neither
whitespace nor a full stop. -/
def keepChar (c : Char) : Bool := !pyIsSpace c && !(c = '.')

/-- The significant characters of a string, in order. -/
def sigChars (s : List Char) : List Char := s.filter keepChar

theorem sigChars_append (s t : List Char) :
    sigChars (s ++ t) = sigChars s ++ sigChars t :=
  List.filter_append s t

theorem sigChars_space_cons (s : List Char) :
    sigChars (' ' :: s) = sigChars s := by
  simp [sigChars, List.filter_cons, keepChar, pyIsSpace]

theorem pyWordsAux_flatten (s : List Char) : ∀ acc : List Char,
    (pyWordsAux s acc).flatten = acc.reverse ++ s.filter (fun c => !pyIsSpace c) := by
  induction s with
  | nil =>
    intro acc
    by_cases h : acc = [] <;> simp [pyWordsAux, h]
  | cons c cs ih =>
    intro acc
    by_cases hc : pyIsSpace c
    · by_cases h : acc = [] <;> simp [pyWordsAux, hc, h, ih]
    · simp [pyWordsAux, hc, ih]

theorem pyWords_flatten (s : List Char) :
    (pyWords s).flatten = s.filter (fun c => !pyIsSpace c) := by
  simpa using pyWordsAux_flatten s []

theorem ne_nil_of_mem_pyWordsAux (s : List Char) :
    ∀ (acc w : List Char), w ∈ pyWordsAux s acc → w ≠ [] := by
  induction s with
  | nil =>
    intro acc w hw
    by_cases h : acc = []
    · simp [pyWordsAux, h] at hw
    · simp only [pyWordsAux, if_neg h, List.mem_singleton] at hw
      subst hw
      simpa using h
  | cons c cs ih =>
    intro acc w hw
    by_cases hc : pyIsSpace c
    · by_cases h : acc = []
      · rw [pyWordsAux] at hw
        simp only [hc, if_true, h, if_pos] at hw
        exact ih [] w hw
      · rw [pyWordsAux] at hw
        simp only [hc, if_true, if_neg h, List.mem_cons] at hw
        rcases hw with hw | hw
        · subst hw; simpa using h
        · exact ih [] w hw
    · rw [pyWordsAux] at hw
      simp only [hc, if_false] at hw
      exact ih (c :: acc) w hw

theorem sigChars_joinSpace : ∀ ws : List (List Char),
    sigChars (joinSpace ws) = sigChars ws.flatten := by
  intro ws
  induction ws with
  | nil => rfl
  | cons w ws ih =>
    cases ws with
    | nil => simp [joinSpace]
    | cons v vs =>
      show sigChars (w ++ ' ' :: joinSpace (v :: vs)) = _
      rw [sigChars_append, sigChars_space_cons, ih]
      simp [List.flatten_cons, sigChars_append]

theorem sigChars_filter_space (s : List Char) :
    sigChars (s.filter (fun c => !pyIsSpace c)) = sigChars s := by
  unfold sigChars
  rw [List.filter_filter]
  refine List.filter_congr ?_
  intro x _
  unfold keepChar
  cases h : pyIsSpace x <;> simp [h]

theorem sigChars_normalize (s : List Char) : sigChars (normalize s) = sigChars s := by
  unfold normalize
  rw [sigChars_joinSpace, pyWords_flatten, sigChars_filter_space]

theorem sigChars_replaceChar (c : Char) (r : List Char)
    (hr : sigChars r = sigChars [c]) :
    ∀ s : List Char, sigChars (replaceChar c r s) = sigChars s := by
  intro s
  induction s with
  | nil => rfl
  | cons x xs ih =>
    rw [replaceChar]
    by_cases hx : x = c
    · subst hx
      rw [if_pos rfl, sigChars_append, ih, hr]
      have hx2 : (x :: xs : List Char) = [x] ++ xs := rfl
      rw [hx2, sigChars_append]
    · rw [if_neg hx]
      show sigChars ([x] ++ replaceChar c r xs) = sigChars ([x] ++ xs)
      rw [sigChars_append, sigChars_append, ih]

theorem flatten_consHead (c : Char) (ls : List (List Char)) :
    (consHead c ls).flatten = c :: ls.flatten := by
  cases ls <;> simp [consHead]

theorem sigChars_splitSpace (s : List Char) :
    sigChars ((splitSpace s).flatten) = sigChars s := by
  induction s with
  | nil => rfl
  | cons c rest ih =>
    rw [splitSpace]
    by_cases hc : c = ' '
    · subst hc
      rw [if_pos rfl, sigChars_space_cons]
      simpa using ih
    · rw [if_neg hc, flatten_consHead]
      show sigChars ([c] ++ (splitSpace rest).flatten) = sigChars ([c] ++ rest)
      rw [sigChars_append, sigChars_append, ih]

theorem sigChars_splitDotSpace (s : List Char) :
    sigChars ((splitDotSpace s).flatten) = sigChars s := by
  induction s using splitDotSpace.induct with
  | case1 => rfl
  | case2 c => simp [splitDotSpace]
  | case3 c d rest h ih =>
    obtain ⟨hc, hd⟩ := h
    subst hc; subst hd
    rw [splitDotSpace, if_pos ⟨rfl, rfl⟩, List.flatten_cons, List.nil_append, ih]
    show _ = sigChars (['.', ' '] ++ rest)
    rw [sigChars_append]
    simp [sigChars, keepChar, pyIsSpace]
  | case4 c d rest h ih =>
    rw [splitDotSpace, if_neg h, flatten_consHead]
    show sigChars ([c] ++ (splitDotSpace (d :: rest)).flatten) = sigChars ([c] ++ (d :: rest))
    rw [sigChars_append, sigChars_append, ih]

theorem sigChars_dropWhile (s : List Char) :
    sigChars (s.dropWhile pyIsSpace) = sigChars s := by
  induction s with
  | nil => rfl
  | cons c cs ih =>
    rw [List.dropWhile_cons]
    by_cases hc : pyIsSpace c
    · rw [if_pos hc, ih]
      unfold sigChars
      rw [List.filter_cons]
      have : keepChar c = false := by unfold keepChar; rw [hc]; rfl
      rw [this]
      rfl
    · rw [if_neg hc]

theorem sigChars_reverse (s : List Char) :
    sigChars s.reverse = (sigChars s).reverse :=
  List.filter_reverse keepChar s

theorem sigChars_pyStrip (s : List Char) : sigChars (pyStrip s) = sigChars s := by
  unfold pyStrip
  rw [sigChars_reverse, sigChars_dropWhile, sigChars_reverse, List.reverse_reverse,
    sigChars_dropWhile]

/-- Flushing a (possibly empty) buffer onto the segment list preserves the
flattened character stream. -/
theorem flatten_flush (segs : List (List Char)) (buf : List Char) :
    (if buf ≠ [] then segs ++ [buf] else segs).flatten = segs.flatten ++ buf := by
  by_cases hb : buf = []
  · simp [hb]
  · simp [hb]

theorem wordLoop_sigChars (m : Nat) : ∀ (ws : List (List Char)) (temp : List Char)
    (segs : List (List Char)),
    sigChars ((wordLoop m ws temp segs).1.flatten ++ (wordLoop m ws temp segs).2)
      = sigChars (segs.flatten ++ temp ++ ws.flatten) := by
  intro ws
  induction ws with
  | nil => intro temp segs; simp [wordLoop]
  | cons w ws ih =>
    intro temp segs
    simp only [wordLoop]
    by_cases h : (pyStrip (temp ++ ' ' :: w)).length ≤ m
    · rw [if_pos h, ih]
      simp only [List.flatten_cons, sigChars_pyStrip, sigChars_append,
        sigChars_space_cons, ← List.append_assoc]
    · rw [if_neg h, ih, flatten_flush]
      simp only [List.flatten_cons, sigChars_append, ← List.append_assoc]

theorem chunkLoop_sigChars (m : Nat) : ∀ (chs : List (List Char)) (current : List Char)
    (segs : List (List Char)),
    sigChars ((chunkLoop m chs current segs).1.flatten ++ (chunkLoop m chs current segs).2)
      = sigChars (segs.flatten ++ current ++ chs.flatten) := by
  intro chs
  induction chs with
  | nil => intro current segs; simp [chunkLoop]
  | cons ch chs ih =>
    intro current segs
    simp only [chunkLoop]
    by_cases h : (pyStrip (current ++ ' ' :: ch)).length ≤ m
    · rw [if_pos h, ih]
      simp only [List.flatten_cons, sigChars_pyStrip, sigChars_append,
        sigChars_space_cons, ← List.append_assoc]
    · rw [if_neg h]
      by_cases hbig : m < ch.length
      · rw [if_pos hbig, ih, flatten_flush]
        have hw := wordLoop_sigChars m (splitSpace ch) []
          (if current ≠ [] then segs ++ [current] else segs)
        rw [flatten_flush] at hw
        simp only [List.append_nil, List.nil_append, sigChars_append,
          ← List.append_assoc] at hw
        rw [sigChars_splitSpace] at hw
        simp only [List.flatten_cons, List.append_nil, sigChars_append,
          ← List.append_assoc]
        rw [hw]
      · rw [if_neg hbig, ih, flatten_flush]
        simp only [List.flatten_cons, sigChars_append, ← List.append_assoc]

/-- Dropping the empty strings from a list of strings does not change the
flattened character stream. -/
theorem flatten_filter_ne_nil (l : List (List Char)) :
    (l.filter (fun s => s ≠ [])).flatten = l.flatten := by
  induction l with
  | nil => rfl
  | cons s l ih =>
    by_cases hs : s = []
    · rw [List.filter_cons, if_neg (by simp [hs]), ih, List.flatten_cons, hs,
        List.nil_append]
    · rw [List.filter_cons, if_pos (by simp [hs]), List.flatten_cons,
        List.flatten_cons, ih]

theorem sigChars_flatten_map_pyStrip (l : List (List Char)) :
    sigChars ((l.map pyStrip).flatten) = sigChars l.flatten := by
  induction l with
  | nil => rfl
  | cons s l ih =>
    simp only [List.map_cons, List.flatten_cons, sigChars_append, sigChars_pyStrip, ih]

/-- `sigChars` instances for the two rewrite steps
`cleaned.replace("!", "!. ").replace("?", "?. ")`. -/
theorem sigChars_replace_bang (s : List Char) :
    sigChars (replaceChar '!' ['!', '.', ' '] s) = sigChars s :=
  sigChars_replaceChar '!' ['!', '.', ' '] (by decide) s

theorem sigChars_replace_question (s : List Char) :
    sigChars (replaceChar '?' ['?', '.', ' '] s) = sigChars s :=
  sigChars_replaceChar '?' ['?', '.', ' '] (by decide) s

/-- Character preservation through `split_text`: the segments, flattened in
order, carry exactly the significant characters of the input. -/
theorem sigChars_split_text (text : List Char) (maxChars : Nat) :
    sigChars ((split_text text maxChars).flatten) = sigChars text := by
  rw [← sigChars_normalize text]
  simp only [split_text]
  by_cases h1 : normalize text = []
  · rw [if_pos h1, h1]
    rfl
  · rw [if_neg h1]
    by_cases h2 : (normalize text).length ≤ maxChars
    · rw [if_pos h2]
      simp
    · rw [if_neg h2]
      rw [flatten_filter_ne_nil, sigChars_flatten_map_pyStrip, flatten_flush]
      rw [chunkLoop_sigChars]
      simp only [List.flatten_nil, List.nil_append]
      rw [sigChars_splitDotSpace, sigChars_replace_question, sigChars_replace_bang]

/-- Every string returned by `split_text` is non-empty. -/
theorem ne_nil_of_mem_split_text {text : List Char} {maxChars : Nat} {s : List Char}
    (hs : s ∈ split_text text maxChars) : s ≠ [] := by
  simp only [split_text] at hs
  by_cases h1 : normalize text = []
  · rw [if_pos h1] at hs
    simp at hs
  · rw [if_neg h1] at hs
    by_cases h2 : (normalize text).length ≤ maxChars
    · rw [if_pos h2] at hs
      rw [List.mem_singleton] at hs
      rw [hs]
      exact h1
    · rw [if_neg h2] at hs
      have := (List.mem_filter.mp hs).2
      simpa using this

/-! ## Length and non-emptiness of the normalized text -/

theorem joinSpace_pyWordsAux_length (s : List Char) : ∀ acc : List Char,
    (joinSpace (pyWordsAux s acc)).length ≤ acc.length + s.length := by
  induction s with
  | nil =>
    intro acc
    by_cases h : acc = []
    · simp [pyWordsAux, h, joinSpace]
    · simp [pyWordsAux, h, joinSpace]
  | cons c cs ih =>
    intro acc
    rw [pyWordsAux]
    by_cases hc : pyIsSpace c
    · rw [if_pos hc]
      by_cases h : acc = []
      · rw [if_pos h]
        have hrec := ih []
        simp only [List.length_nil, Nat.zero_add] at hrec
        simp only [List.length_cons]
        omega
      · rw [if_neg h]
        cases hrest : pyWordsAux cs [] with
        | nil =>
          show (joinSpace [acc.reverse]).length ≤ _
          simp only [joinSpace, List.length_reverse, List.length_cons]
          omega
        | cons r rs =>
          have hrec := ih []
          rw [hrest] at hrec
          simp only [List.length_nil, Nat.zero_add] at hrec
          show (acc.reverse ++ ' ' :: joinSpace (r :: rs)).length ≤ _
          simp only [List.length_append, List.length_reverse, List.length_cons]
          omega
    · rw [if_neg hc]
      have hrec := ih (c :: acc)
      simp only [List.length_cons] at hrec ⊢
      omega

/-- Whitespace normalization never lengthens the text. -/
theorem normalize_length_le (s : List Char) : (normalize s).length ≤ s.length := by
  simpa using joinSpace_pyWordsAux_length s []

/-- A text containing at least one non-whitespace character does not
normalize to the empty string. -/
theorem normalize_ne_nil {s : List Char} {c : Char} (hc : c ∈ s)
    (hsp : pyIsSpace c = false) : normalize s ≠ [] := by
  have h1 : c ∈ (pyWords s).flatten := by
    rw [pyWords_flatten]
    exact List.mem_filter.mpr ⟨hc, by simp [hsp]⟩
  have h2 : pyWords s ≠ [] := by
    intro h
    rw [h] at h1
    simp at h1
  obtain ⟨w, ws, hw⟩ := List.exists_cons_of_ne_nil h2
  rw [normalize, hw]
  cases ws with
  | nil =>
    have hwne : w ≠ [] := by
      refine ne_nil_of_mem_pyWordsAux s [] w ?_
      rw [← pyWords, hw]
      exact List.mem_cons_self w []
    simpa [joinSpace] using hwne
  | cons v vs =>
    show w ++ ' ' :: joinSpace (v :: vs) ≠ []
    simp

/-! ## The streaming loop: prefix of successful segments -/

/-- Running `event_generator`'s loop over `m` segments that are all reached
(no disconnect) and all succeed emits the `m` audio events in index order
and continues at index `i + m`. -/
theorem eventLoop_run (disc att : Nat → Bool) (total : Nat) :
    ∀ (m : Nat) (segs : List (List Char)) (i : Nat), m ≤ segs.length →
      (∀ j, j < m → disc (i + j) = false) →
      (∀ j, j < m → att (i + j) = true) →
      eventLoop disc att total i segs
        = (List.range m).map (fun j => StreamEvent.audio (i + j) total)
          ++ eventLoop disc att total (i + m) (segs.drop m) := by
  intro m
  induction m with
  | zero => intro segs i _ _ _; simp
  | succ m ih =>
    intro segs i hlen hdisc hatt
    cases segs with
    | nil => simp at hlen
    | cons s rest =>
      rw [eventLoop]
      have h0 : disc i = false := by simpa using hdisc 0 (Nat.succ_pos m)
      have h1 : att i = true := by simpa using hatt 0 (Nat.succ_pos m)
      rw [if_neg (by simp [h0]), if_pos h1]
      have hlen' : m ≤ rest.length := by
        simp only [List.length_cons] at hlen
        omega
      have hd' : ∀ j, j < m → disc (i + 1 + j) = false := by
        intro j hj
        have := hdisc (j + 1) (by omega)
        rwa [show i + (j + 1) = i + 1 + j by omega] at this
      have ha' : ∀ j, j < m → att (i + 1 + j) = true := by
        intro j hj
        have := hatt (j + 1) (by omega)
        rwa [show i + (j + 1) = i + 1 + j by omega] at this
      rw [ih rest (i + 1) hlen' hd' ha']
      simp only [List.range_succ_eq_map, List.map_cons, List.map_map, List.cons_append,
        List.drop_succ_cons, Nat.add_zero, Function.comp_def, Nat.add_succ, Nat.succ_add]

/-! ## Claim C2 -/

/-- C2 counterexample: the claim says no non-whitespace character is ever
dropped, but the full stop of `"aa. bb"` is consumed by the `". "` split:
`split_text("aa. bb", 3) = ["aa", "bb"]` contains no `'.'` although the
input contains a non-whitespace `'.'`. -/
theorem c2_counterexample :
    pyIsSpace '.' = false
      ∧ '.' ∈ ("aa. bb".toList)
      ∧ '.' ∉ (split_text ("aa. bb".toList) 3).flatten := by
  decide

/-- C2 (amended): for every text and maxChars, every returned segment has
non-zero length, and the segments concatenated in order contain exactly the
non-whitespace characters of the original text other than full stops, in
the original order (sentence-boundary periods consumed by the `". "` split
are the only non-whitespace characters that can be dropped). -/
theorem c2_segments_nonempty_and_chars_preserved (text : List Char) (maxChars : Nat) :
    (∀ s ∈ split_text text maxChars, s ≠ [])
      ∧ sigChars ((split_text text maxChars).flatten) = sigChars text :=
  ⟨fun _ hs => ne_nil_of_mem_split_text hs, sigChars_split_text text maxChars⟩

/-- C2 witness: the amended theorem evaluated on `"aa. bb"` with
`maxChars = 3`. -/
theorem c2_witness :
    ("aa".toList ≠ [])
      ∧ sigChars ((split_text ("aa. bb".toList) 3).flatten) = sigChars ("aa. bb".toList) :=
  ⟨(c2_segments_nonempty_and_chars_preserved ("aa. bb".toList) 3).1 ("aa".toList) (by decide),
   (c2_segments_nonempty_and_chars_preserved ("aa. bb".toList) 3).2⟩

/-! ## Claim C7 -/

/-- C7 counterexample: the claim quantifies over every non-empty text, but
an all-whitespace text is non-empty, fits in `maxChars`, and still yields
no segment at all (line 4 of split_text returns `[]`). -/
theorem c7_counterexample :
    (" ".toList ≠ ([] : List Char))
      ∧ (" ".toList).length ≤ 5
      ∧ split_text (" ".toList) 5 = [] := by
  decide

/-- C7 (amended): for every text containing at least one non-whitespace
character, if the text's length is at most `maxChars` then `split_text`
returns exactly one segment, the whitespace-normalized text. -/
theorem c7_short_text_single_segment (text : List Char) (maxChars : Nat) (c : Char)
    (hc : c ∈ text) (hsp : pyIsSpace c = false) (hlen : text.length ≤ maxChars) :
    split_text text maxChars = [normalize text] := by
  simp only [split_text]
  rw [if_neg (normalize_ne_nil hc hsp),
    if_pos (le_trans (normalize_length_le text) hlen)]

/-- C7 witness: `split_text "Hi  there" 20` is the single normalized
segment `"Hi there"`. -/
theorem c7_witness : split_text ("Hi  there".toList) 20 = ["Hi there".toList] := by
  have h := c7_short_text_single_segment ("Hi  there".toList) 20 'H'
    (by decide) (by decide) (by decide)
  rw [h]
  decide

/-! ## Claim C10 -/

/-- C10 counterexample: returned segments are not always
whitespace-normalized, and segmentation is not idempotent on them:
`split_text("a! b! cccc", 6)` returns the segment `"a!  b!"` (double
space, length 6 ≤ 6), and `split_text("a!  b!", 6) = ["a! b!"] ≠
["a!  b!"]`. -/
theorem c10_counterexample :
    ("a!  b!".toList ∈ split_text ("a! b! cccc".toList) 6)
      ∧ ("a!  b!".toList).length ≤ 6
      ∧ split_text ("a!  b!".toList) 6 ≠ ["a!  b!".toList] := by
  decide

/-- C10 (amended): for every segment `s` returned by `split_text` with
`s.length ≤ maxChars` that is in addition whitespace-normalized
(`normalize s = s`), `split_text s maxChars = [s]`. -/
theorem c10_idempotent_on_normalized_segments (text : List Char) (maxChars : Nat)
    (s : List Char) (hs : s ∈ split_text text maxChars)
    (hlen : s.length ≤ maxChars) (hnorm : normalize s = s) :
    split_text s maxChars = [s] := by
  have hne := ne_nil_of_mem_split_text hs
  simp only [split_text]
  rw [hnorm, if_neg hne, if_pos hlen]

/-- C10 witness: the segment `"aa"` of `split_text "aa. bb" 3` re-splits to
exactly itself. -/
theorem c10_witness : split_text ("aa".toList) 3 = ["aa".toList] :=
  c10_idempotent_on_normalized_segments ("aa. bb".toList) 3 ("aa".toList)
    (by decide) (by decide) (by decide)

/-! ## Claim C3 -/

/-- C3: in a streaming session where the client stays connected through
segment `k`, segments before `k` succeed and the guarded body of segment
`k` fails, the generator emits exactly one error event — carrying index
`k` and the session total — and emits no event for any index greater than
`k` (the loop breaks, so no later segment is attempted). -/
theorem c3_error_event_is_terminal (disc att : Nat → Bool) (segs : List (List Char))
    (k : Nat) (hk : k < segs.length)
    (hdisc : ∀ j, j ≤ k → disc j = false)
    (hatt : ∀ j, j < k → att j = true)
    (hfail : att k = false) :
    (event_generator disc att segs).filter (fun e => e.isError)
        = [StreamEvent.error k segs.length]
      ∧ ∀ e ∈ event_generator disc att segs, e.index' ≤ k := by
  have hrun := eventLoop_run disc att segs.length k segs 0 (le_of_lt hk)
    (fun j hj => by simpa using hdisc j (le_of_lt hj))
    (fun j hj => by simpa using hatt j hj)
  simp only [Nat.zero_add] at hrun
  have htail : eventLoop disc att segs.length k (segs.drop k)
      = [StreamEvent.error k segs.length] := by
    rw [List.drop_eq_getElem_cons hk, eventLoop,
      if_neg (by simp [hdisc k le_rfl]), if_neg (by simp [hfail])]
  have hev : event_generator disc att segs
      = (List.range k).map (fun j => StreamEvent.audio j segs.length)
        ++ [StreamEvent.error k segs.length] := by
    rw [event_generator, hrun, htail]
  constructor
  · rw [hev, List.filter_append]
    have hmap : ((List.range k).map
        (fun j => StreamEvent.audio j segs.length)).filter (fun e => e.isError) = [] := by
      rw [List.filter_eq_nil_iff]
      intro e he
      obtain ⟨j, _, rfl⟩ := List.mem_map.mp he
      simp [StreamEvent.isError]
    rw [hmap]
    rfl
  · intro e he
    rw [hev] at he
    rcases List.mem_append.mp he with h | h
    · obtain ⟨j, hj, rfl⟩ := List.mem_map.mp h
      exact le_of_lt (List.mem_range.mp hj)
    · rw [List.mem_singleton] at h
      rw [h]
      exact le_rfl

/-- C3 witness: three segments, no disconnect, segment 1 fails. -/
theorem c3_witness :
    (event_generator (fun _ => false) (fun i => i == 0)
        [['a'], ['b'], ['c']]).filter (fun e => e.isError) = [StreamEvent.error 1 3]
      ∧ ∀ e ∈ event_generator (fun _ => false) (fun i => i == 0) [['a'], ['b'], ['c']],
          e.index' ≤ 1 := by
  have h := c3_error_event_is_terminal (fun _ => false) (fun i => i == 0)
    [['a'], ['b'], ['c']] 1 (by decide)
    (fun j _ => rfl)
    (fun j hj => by
      have : j = 0 := by omega
      subst this
      rfl)
    (by decide)
  exact h

/-! ## Claim C6 -/

/-- C6: in a streaming session where segments `0..k` all succeed with the
client connected, and the client is detected as disconnected before
segment `k+1` is attempted, the generator emits exactly the audio events
`0..k`: no event with index greater than `k`, no error event, and the
session ends (the loop breaks). -/
theorem c6_disconnect_stops_stream (disc att : Nat → Bool) (segs : List (List Char))
    (k : Nat) (hk : k + 1 < segs.length)
    (hdisc : ∀ j, j ≤ k → disc j = false)
    (hd1 : disc (k + 1) = true)
    (hatt : ∀ j, j ≤ k → att j = true) :
    event_generator disc att segs
        = (List.range (k + 1)).map (fun j => StreamEvent.audio j segs.length)
      ∧ (∀ e ∈ event_generator disc att segs, e.index' ≤ k)
      ∧ (event_generator disc att segs).filter (fun e => e.isError) = [] := by
  have hrun := eventLoop_run disc att segs.length (k + 1) segs 0 (le_of_lt hk)
    (fun j hj => by simpa using hdisc j (by omega))
    (fun j hj => by simpa using hatt j (by omega))
  simp only [Nat.zero_add] at hrun
  have htail : eventLoop disc att segs.length (k + 1) (segs.drop (k + 1)) = [] := by
    rw [List.drop_eq_getElem_cons hk, eventLoop, if_pos hd1]
  have hev : event_generator disc att segs
      = (List.range (k + 1)).map (fun j => StreamEvent.audio j segs.length) := by
    rw [event_generator, hrun, htail, List.append_nil]
  refine ⟨hev, ?_, ?_⟩
  · intro e he
    rw [hev] at he
    obtain ⟨j, hj, rfl⟩ := List.mem_map.mp he
    have := List.mem_range.mp hj
    show j ≤ k
    omega
  · rw [hev, List.filter_eq_nil_iff]
    intro e he
    obtain ⟨j, _, rfl⟩ := List.mem_map.mp he
    simp [StreamEvent.isError]

/-- C6 witness: four segments, all succeeding, disconnect detected before
segment 2; only audio events 0 and 1 are emitted. -/
theorem c6_witness :
    event_generator (fun i => i == 2) (fun _ => true) [['a'], ['b'], ['c'], ['d']]
        = [StreamEvent.audio 0 4, StreamEvent.audio 1 4]
      ∧ (∀ e ∈ event_generator (fun i => i == 2) (fun _ => true) [['a'], ['b'], ['c'], ['d']],
          e.index' ≤ 1)
      ∧ (event_generator (fun i => i == 2) (fun _ => true)
          [['a'], ['b'], ['c'], ['d']]).filter (fun e => e.isError) = [] := by
  have h := c6_disconnect_stops_stream (fun i => i == 2) (fun _ => true)
    [['a'], ['b'], ['c'], ['d']] 1 (by decide)
    (fun j hj => by
      interval_cases j <;> rfl)
    (by decide)
    (fun j _ => rfl)
  exact ⟨by rw [h.1]; decide, h.2.1, h.2.2⟩

/-! ## Claim C5 -/

/-- Reachability invariant of the semaphore transition system: starting
from an admission count within the capacity, every state along any
admissible schedule stays within the capacity. -/
theorem gateStates_bounded (maxConcurrency : Nat) :
    ∀ (ops : List SemOp) (n : Nat) (states : List Nat),
      n ≤ maxConcurrency → gateStates maxConcurrency n ops = some states →
      ∀ s ∈ states, s ≤ maxConcurrency := by
  intro ops
  induction ops with
  | nil =>
    intro n states hn h
    rw [gateStates] at h
    cases h
    intro s hs
    rw [List.mem_singleton] at hs
    rw [hs]
    exact hn
  | cons op ops ih =>
    intro n states hn h
    rw [gateStates] at h
    cases hstep : gateStep maxConcurrency n op with
    | none => rw [hstep] at h; cases h
    | some m =>
      rw [hstep] at h
      obtain ⟨states', hst, rfl⟩ := Option.map_eq_some'.mp h
      have hm : m ≤ maxConcurrency := by
        cases op with
        | acquire =>
          rw [gateStep] at hstep
          by_cases hcond : n < maxConcurrency
          · rw [if_pos hcond] at hstep
            cases hstep
            omega
          · rw [if_neg hcond] at hstep
            cases hstep
        | release =>
          rw [gateStep] at hstep
          by_cases hcond : 0 < n
          · rw [if_pos hcond] at hstep
            cases hstep
            omega
          · rw [if_neg hcond] at hstep
            cases hstep
      intro s hs
      rcases List.mem_cons.mp hs with rfl | hs
      · exact hn
      · exact ih m states' hm hst s hs

/-- C5: the semaphore `_semaphore = asyncio.Semaphore(MAX_CONCURRENCY)`
admits at most `MAX_CONCURRENCY` units of work at every point of every
admissible schedule, for any number of concurrent callers: along any
schedule starting from zero admitted, every intermediate admission count
is at most the capacity. -/
theorem c5_gate_concurrency_bound (maxConcurrency : Nat) (ops : List SemOp)
    (states : List Nat) (h : gateStates maxConcurrency 0 ops = some states) :
    ∀ s ∈ states, s ≤ maxConcurrency :=
  gateStates_bounded maxConcurrency ops 0 states (Nat.zero_le _) h

/-- C5 witness: capacity 2 with five callers' acquires and releases
interleaved; the schedule is admissible and its peak state, 2, is within
the bound. -/
theorem c5_witness :
    gateStates 2 0
        [.acquire, .acquire, .release, .acquire, .release, .acquire, .release,
          .acquire, .release, .release]
        = some [0, 1, 2, 1, 2, 1, 2, 1, 2, 1, 0]
      ∧ (2 : Nat) ≤ 2 :=
  ⟨by decide,
   c5_gate_concurrency_bound 2
    [.acquire, .acquire, .release, .acquire, .release, .acquire, .release,
      .acquire, .release, .release]
    [0, 1, 2, 1, 2, 1, 2, 1, 2, 1, 0] (by decide) 2 (by decide)⟩

/-! ## Claim C4 -/

/-- C4: `run_inference` uses the configured default when `timeout` is
unset; applies no deadline when the effective timeout is ≤ 0 (the job's
own outcome is returned no matter how long it runs); fails with a timeout
error when a positive effective deadline expires; and its slot trace
acquires and releases the admission slot exactly once on every exit
path. -/
theorem c4_run_inference_deadline_and_slot (requestTimeoutS : Int) (timeout : Option Int)
    (jobDuration : Nat) (jobResult : Except (List Char) Nat) :
    effectiveTimeout requestTimeoutS none = requestTimeoutS
      ∧ (effectiveTimeout requestTimeoutS timeout ≤ 0 →
          (run_inference requestTimeoutS timeout jobDuration jobResult).1 = ofExcept jobResult)
      ∧ (0 < effectiveTimeout requestTimeoutS timeout →
          effectiveTimeout requestTimeoutS timeout < (jobDuration : Int) →
          (run_inference requestTimeoutS timeout jobDuration jobResult).1 = InfResult.timedOut)
      ∧ (run_inference requestTimeoutS timeout jobDuration jobResult).2.count Step.acquireSlot = 1
      ∧ (run_inference requestTimeoutS timeout jobDuration jobResult).2.count Step.releaseSlot = 1 := by
  refine ⟨rfl, ?_, ?_, rfl, rfl⟩
  · intro hle
    show (if 0 < effectiveTimeout requestTimeoutS timeout
          ∧ effectiveTimeout requestTimeoutS timeout < (jobDuration : Int)
        then InfResult.timedOut else _) = _
    rw [if_neg (by omega)]
    cases jobResult <;> rfl
  · intro hpos hexp
    show (if 0 < effectiveTimeout requestTimeoutS timeout
          ∧ effectiveTimeout requestTimeoutS timeout < (jobDuration : Int)
        then InfResult.timedOut else _) = _
    rw [if_pos ⟨hpos, hexp⟩]

/-- C4 witness: with default 5 and no caller timeout, a 10-unit job times
out; with caller timeout 0, no deadline applies and the job's value is
returned; the slot trace acquires and releases exactly once. -/
theorem c4_witness :
    (run_inference 5 none 10 (Except.ok (7 : Nat))).1 = InfResult.timedOut
      ∧ (run_inference 5 (some 0) 10 (Except.ok (7 : Nat))).1 = InfResult.ok 7
      ∧ (run_inference 5 none 10 (Except.ok (7 : Nat))).2.count Step.acquireSlot = 1
      ∧ (run_inference 5 none 10 (Except.ok (7 : Nat))).2.count Step.releaseSlot = 1 :=
  ⟨(c4_run_inference_deadline_and_slot 5 none 10 (Except.ok 7)).2.2.1 (by decide) (by decide),
   (c4_run_inference_deadline_and_slot 5 (some 0) 10 (Except.ok 7)).2.1 (by decide),
   (c4_run_inference_deadline_and_slot 5 none 10 (Except.ok 7)).2.2.2.1,
   (c4_run_inference_deadline_and_slot 5 none 10 (Except.ok 7)).2.2.2.2⟩

/-! ## Claim C8 -/

/-- The retained snapshot after any operation sequence is the most
recently published message. -/
theorem runBus_current (α : Type) : ∀ (ops : List (BusOp α)) (s : BusState α),
    (runBus s ops).current
      = ops.foldl (fun acc op => match op with
          | .publish m => some m
          | .subscribeOp => acc) s.current := by
  intro ops
  induction ops with
  | nil => intro s; rfl
  | cons op ops ih =>
    intro s
    show (runBus (applyBusOp s op) ops).current = _
    rw [ih]
    cases op <;> rfl

/-- C8: a subscriber that registers after at least one publish receives,
already at subscription time and without waiting for the next publish,
the most recently published message as the first (and only) element of
its fresh queue; the registered subscriber's channel in the bus state is
exactly that queue. -/
theorem c8_late_subscriber_gets_snapshot (α : Type) (ops : List (BusOp α)) (m : α)
    (h : lastPublished ops = some m) :
    freshQueue (runBus (busInit α) ops).current = [m]
      ∧ (freshQueue (runBus (busInit α) ops).current).head? = some m
      ∧ (applyBusOp (runBus (busInit α) ops) BusOp.subscribeOp).queues.getLast? = some [m] := by
  have hc : (runBus (busInit α) ops).current = some m := by
    rw [runBus_current]
    exact h
  refine ⟨?_, ?_, ?_⟩
  · rw [hc]
    rfl
  · rw [hc]
    rfl
  · show ((runBus (busInit α) ops).queues
        ++ [freshQueue (runBus (busInit α) ops).current]).getLast? = some [m]
    rw [List.getLast?_concat, hc]
    rfl

/-- C8 witness: after publishing 1 (with a subscriber joining in between)
and then 2, a fresh subscriber's queue is exactly `[2]`. -/
theorem c8_witness :
    freshQueue (runBus (busInit Nat)
        [BusOp.publish 1, BusOp.subscribeOp, BusOp.publish 2]).current = [2]
      ∧ (freshQueue (runBus (busInit Nat)
          [BusOp.publish 1, BusOp.subscribeOp, BusOp.publish 2]).current).head? = some 2
      ∧ (applyBusOp (runBus (busInit Nat) [BusOp.publish 1, BusOp.subscribeOp, BusOp.publish 2])
          BusOp.subscribeOp).queues.getLast? = some [2] :=
  c8_late_subscriber_gets_snapshot Nat [BusOp.publish 1, BusOp.subscribeOp, BusOp.publish 2]
    2 rfl

/-! ## Claim C9 -/

/-- The status stream renders exactly the environment prefix before the
first internal error, one wire event per surviving iteration. -/
theorem streamEvents_takeWhile (α : Type) : ∀ envs : List (WaitEnv α),
    streamEvents envs = (envs.takeWhile (fun e => !e.isCrash)).map renderEnv := by
  intro envs
  induction envs with
  | nil => rfl
  | cons e rest ih =>
    cases e with
    | arrival d m =>
      by_cases hd : d ≤ KEEP_ALIVE_TIMEOUT_S
      · simp [streamEvents, waitForNext, hd, List.takeWhile_cons, WaitEnv.isCrash,
          renderEnv, ih]
      · simp [streamEvents, waitForNext, hd, List.takeWhile_cons, WaitEnv.isCrash,
          renderEnv, ih]
    | quiet =>
      simp [streamEvents, waitForNext, List.takeWhile_cons, WaitEnv.isCrash,
        renderEnv, ih]
    | crash =>
      simp [streamEvents, waitForNext, List.takeWhile_cons, WaitEnv.isCrash]

/-- Whatever the environment holds after an internal error is never
emitted: the stream ends at the first crash. -/
theorem streamEvents_crash_stops (α : Type) : ∀ (pre post : List (WaitEnv α)),
    streamEvents (pre ++ WaitEnv.crash :: post) = streamEvents (pre ++ [WaitEnv.crash]) := by
  intro pre post
  induction pre with
  | nil => rfl
  | cons e pre ih =>
    cases e with
    | arrival d m =>
      by_cases hd : d ≤ KEEP_ALIVE_TIMEOUT_S
      · show streamEvents (WaitEnv.arrival d m :: (pre ++ WaitEnv.crash :: post)) = _
        simp only [streamEvents, waitForNext, if_pos hd, ih]
        rfl
      · show streamEvents (WaitEnv.arrival d m :: (pre ++ WaitEnv.crash :: post)) = _
        simp only [streamEvents, waitForNext, if_neg hd, ih]
        rfl
    | quiet =>
      show streamEvents (WaitEnv.quiet :: (pre ++ WaitEnv.crash :: post)) = _
      simp only [streamEvents, waitForNext, ih]
      rfl
    | crash => rfl

/-- C9: each iteration in which no message arrives within the 15-unit wait
window emits the keep-alive ping (which is not a data event) instead of a
real message, and on any internal error other than the wait timeout the
stream ends: nothing after the first crash is ever emitted, and the whole
stream is the rendering of the crash-free prefix. -/
theorem c9_keepalive_and_error_stop (α : Type) (envs pre post : List (WaitEnv α))
    (d : Nat) (m : α) :
    streamEvents envs = (envs.takeWhile (fun e => !e.isCrash)).map renderEnv
      ∧ (KEEP_ALIVE_TIMEOUT_S < d →
          waitForNext (WaitEnv.arrival d m) = (WaitOutcome.timedOut : WaitOutcome α)
          ∧ renderEnv (WaitEnv.arrival d m) = WireEvent.ping)
      ∧ renderEnv (WaitEnv.quiet : WaitEnv α) = WireEvent.ping
      ∧ (∀ m' : α, (WireEvent.ping : WireEvent α) ≠ WireEvent.data m')
      ∧ streamEvents (pre ++ WaitEnv.crash :: post) = streamEvents (pre ++ [WaitEnv.crash]) := by
  refine ⟨streamEvents_takeWhile α envs, ?_, rfl, ?_, streamEvents_crash_stops α pre post⟩
  · intro hd
    constructor
    · rw [waitForNext, if_neg (by omega)]
    · rw [renderEnv, if_neg (by omega)]
  · intro m' hcontra
    cases hcontra

/-- C9 witness: a 16-unit-late arrival renders as the ping marker, a
crashed iteration truncates the stream, and a concrete stream equals its
crash-free prefix rendering. -/
theorem c9_witness :
    streamEvents [WaitEnv.arrival 3 (7 : Nat), WaitEnv.quiet, WaitEnv.crash,
        WaitEnv.arrival 1 5]
      = (([WaitEnv.arrival 3 (7 : Nat), WaitEnv.quiet, WaitEnv.crash,
          WaitEnv.arrival 1 5].takeWhile (fun e => !e.isCrash)).map renderEnv)
      ∧ waitForNext (WaitEnv.arrival 16 (7 : Nat)) = (WaitOutcome.timedOut : WaitOutcome Nat)
      ∧ renderEnv (WaitEnv.arrival 16 (7 : Nat)) = WireEvent.ping := by
  have h := c9_keepalive_and_error_stop Nat
    [WaitEnv.arrival 3 (7 : Nat), WaitEnv.quiet, WaitEnv.crash, WaitEnv.arrival 1 5]
    [WaitEnv.quiet] [WaitEnv.arrival 1 5] 16 7
  exact ⟨h.1, (h.2.1 (by decide)).1, (h.2.1 (by decide)).2⟩

/-! ## Claim C1 -/

/-- C1 counterexample: a fully validated non-streaming custom-voice
request performs its generation call with no gate admission at all — the
handler calls `tts_manager.generate_custom_voice` directly (line 54)
instead of going through `run_inference`, so the claimed
validate → ConcurrencyGate → generate → encode path does not hold. -/
theorem c1_counterexample :
    Step.generate ∈ generateCustomVoice true true true
      ∧ Step.acquireSlot ∉ generateCustomVoice true true true := by
  decide

/-- C1 (amended): for every non-streaming request that passes validation,
the blocking path is validate, then one generation call made directly
(not through the ConcurrencyGate — no admission slot is ever acquired),
then encode; this holds for all three endpoints. -/
theorem c1_blocking_path_no_gate (speakerOk modelOk refOk genOk : Bool) :
    (speakerOk = true → modelOk = true →
      generateCustomVoice speakerOk modelOk genOk
          = Step.generate :: (if genOk then [Step.encode] else [])
        ∧ Step.acquireSlot ∉ generateCustomVoice speakerOk modelOk genOk)
      ∧ (generateVoiceDesign genOk = Step.generate :: (if genOk then [Step.encode] else [])
        ∧ Step.acquireSlot ∉ generateVoiceDesign genOk)
      ∧ (modelOk = true → refOk = true →
        generateVoiceClone modelOk refOk genOk
            = Step.prepareRef :: Step.generate :: (if genOk then [Step.encode] else [])
          ∧ Step.acquireSlot ∉ generateVoiceClone modelOk refOk genOk) := by
  cases speakerOk <;> cases modelOk <;> cases refOk <;> cases genOk <;> decide

/-- C1 witness: the amended theorem evaluated on a valid request whose
generation succeeds, for all three endpoints. -/
theorem c1_witness :
    generateCustomVoice true true true = [Step.generate, Step.encode]
      ∧ Step.acquireSlot ∉ generateCustomVoice true true true
      ∧ generateVoiceDesign true = [Step.generate, Step.encode]
      ∧ generateVoiceClone true true true = [Step.prepareRef, Step.generate, Step.encode]
      ∧ Step.acquireSlot ∉ generateVoiceClone true true true := by
  have h := c1_blocking_path_no_gate true true true true
  exact ⟨(h.1 rfl rfl).1, (h.1 rfl rfl).2, h.2.1.1, (h.2.2 rfl rfl).1, (h.2.2 rfl rfl).2⟩

end TTS
